import Mathlib

/-!
Verification of the telnetio sans-IO telnet state machine
(`src/telnetio/_machine.py`, `src/telnetio/_opt.py`).

The generator-based decoder of `TelnetMachine` is embedded as an explicit
state machine: each constructor of `MState` is one suspension point
(a `yield`) of the mutually-reentered generator functions `_state_data`,
`_state_iac`, `_state_sb`.  Machine integers are `Nat` (every input octet
is 0-255, but the code performs only equality tests, so nothing depends on
the bound).  Raised `ValueError`s are modelled with `Except`.
-/

namespace TelnetModel

/-- Events appended to the backlog by the machine (`Command`, `SubCommand`
in `_machine.py`); the `Opt` enum member held in the Python dataclass is
represented by its numeric value. -/
inductive Event where
  | command (cmd : Nat) (opt : Option Nat)
  | subCommand (cmd : Nat) (opts : List Nat)
deriving DecidableEq

/-- An entry of `Backlog.data`: either a coalesced run of message bytes
(`add_message`) or an event (`add_event`). -/
inductive Item where
  | msg (bs : List Nat)
  | ev (e : Event)
deriving DecidableEq

/-- A Python `ValueError` raised by the machine, with its message. -/
inductive PyError where
  | valueError (s : String)
deriving DecidableEq

/-- Membership in the `Opt` enum of `_opt.py`: the declared values are
NULL/BINARY=0, ECHO=1, RCP=2, SGA=3, NAMS=4, STATUS=5, LINEMODE=34 and the
control octets SE=240 .. IAC=255.  `Opt(b)` succeeds exactly on these. -/
def optMember (b : Nat) : Bool :=
  b ≤ 5 || b = 34 || (240 ≤ b && b ≤ 255)

/-- `TelnetMachine._iac_mbs`: the commands taking a third byte,
`(DO, DONT, WILL, WONT)`. -/
def iacMbs : List Nat := [253, 254, 251, 252]

/-- The suspension points of the generator-based decoder. -/
inductive MState where
  /-- `_state_data` suspended at `char = yield`. -/
  | data
  /-- `_state_data` suspended at `char_after_cr = yield`. -/
  | dataCr
  /-- `_state_iac` suspended at `cmd = yield`. -/
  | iac
  /-- `_state_iac` suspended at `opt = yield` (3-byte command). -/
  | iacOpt (cmd : Nat)
  /-- `_state_sb` suspended at `data = yield`; `buf` is the SB buffer. -/
  | sb (buf : List Nat)
  /-- `_state_sb` suspended at `opt = yield` after an IAC. -/
  | sbIac (buf : List Nat)
  /-- the current generator was terminated by a raised exception; sending
  to it raises `StopIteration`, dropping the byte, and the machine then
  resumes from `_state_data` (the pending `_next_state`). -/
  | failed
deriving DecidableEq

/-- One byte through the machine: the items appended to the backlog and the
next suspension point, or the raised `ValueError`.  Transcribed branch by
branch from `_state_data`, `_state_iac` and `_state_sb`. -/
def step : MState → Nat → Except PyError (List Item × MState)
  | .data, b =>
    if b = 255 then .ok ([], .iac)
    else if b = 13 then .ok ([], .dataCr)
    else .ok ([.msg [b]], .data)
  | .dataCr, b =>
    if b = 10 then .ok ([.msg [10]], .data)
    else if b = 0 then .ok ([.msg [13]], .data)
    else if b = 255 then .ok ([.msg [13]], .iac)
    else .ok ([.msg [13, b]], .data)
  | .iac, b =>
    if b ∈ iacMbs then .ok ([], .iacOpt b)
    else if b = 255 then .ok ([.msg [255]], .data)
    else if b = 250 then .ok ([], .sb [])
    else if optMember b then .ok ([.ev (.command b none)], .data)
    else .error (.valueError "not a valid Opt")
  | .iacOpt cmd, b => .ok ([.ev (.command cmd (some b))], .data)
  | .sb buf, b =>
    if b = 255 then .ok ([], .sbIac buf)
    else .ok ([], .sb (buf ++ [b]))
  | .sbIac buf, b =>
    if b = 240 then
      match buf with
      | [] => .error (.valueError "SE: buffer empty")
      | c :: rest =>
        if c = 0 then .error (.valueError "SE: buffer is NUL")
        else if rest = [] then .error (.valueError "SE: buffer too short")
        else if optMember c then .ok ([.ev (.subCommand c rest)], .data)
        else .error (.valueError "not a valid Opt")
    else if b = 255 then .ok ([], .sb (buf ++ [255]))
    else .ok ([], .sb buf)
  | .failed, _ => .ok ([], .data)

/-- `Backlog.add_message`: append message bytes, coalescing into a trailing
message entry when there is one. -/
def addMessage : List Item → List Nat → List Item
  | [], bs => [.msg bs]
  | [.msg cs], bs => [.msg (cs ++ bs)]
  | [.ev e], bs => [.ev e, .msg bs]
  | x :: y :: rest, bs => x :: addMessage (y :: rest) bs

/-- Append one backlog entry (`add_message` for bytes, `add_event` for
events). -/
def addItem (bl : List Item) : Item → List Item
  | .msg bs => addMessage bl bs
  | .ev e => bl ++ [.ev e]

def addItems (bl : List Item) (items : List Item) : List Item :=
  items.foldl addItem bl

/-- Result of the byte loop of `receive_data`. -/
structure ProcResult where
  backlog : List Item
  state : MState
  leftover : List Nat
  error : Option PyError
deriving DecidableEq

/-- The byte loop of `receive_data`: feed each byte to the current
generator; on an exception keep the backlog, record the unconsumed tail
(`data[idx:]`, including the raising byte) as leftover, and leave the dead
generator in place. -/
def process : List Nat → MState → List Item → ProcResult
  | [], s, bl => ⟨bl, s, [], none⟩
  | b :: rest, s, bl =>
    match step s b with
    | .ok (items, s2) => process rest s2 (addItems bl items)
    | .error e => ⟨bl, .failed, b :: rest, some e⟩

/-- The mutable fields of `TelnetMachine` relevant to decoding. -/
structure Machine where
  state : MState
  backlog : List Item
  leftover : List Nat
deriving DecidableEq

def Machine.init : Machine := ⟨.data, [], []⟩

/-- Result of one `receive_data` call: the backlog entries handed to the
receive/event callbacks (empty when the call raises), the machine
afterwards, and the raised exception if any. -/
structure RecvResult where
  delivered : List Item
  machine : Machine
  error : Option PyError
deriving DecidableEq

/-- `TelnetMachine.receive_data`: prepend the leftover, run the byte loop;
on success flush the backlog to the callbacks, on an exception keep the
backlog and the unconsumed tail for the next call and re-raise. -/
def receiveData (m : Machine) (data : List Nat) : RecvResult :=
  let r := process (m.leftover ++ data) m.state m.backlog
  match r.error with
  | none => ⟨r.backlog, ⟨r.state, [], []⟩, none⟩
  | some e => ⟨[], ⟨r.state, r.backlog, r.leftover⟩, some e⟩

/-- `TelnetMachine.send_message`: the bytes handed to the send callbacks,
`data.replace(bytes([IAC]), bytes([IAC, IAC]))`. -/
def sendMessage : List Nat → List Nat
  | [] => []
  | b :: rest => if b = 255 then 255 :: 255 :: sendMessage rest else b :: sendMessage rest

/-- The escape transform as the spec words it: replace every IAC in `data`
with IAC IAC, changing nothing else. -/
def escapeSpec (data : List Nat) : List Nat :=
  (data.map (fun b => if b = 255 then [255, 255] else [b])).flatten

/-- `Command(cmd, opt).as_bytes()`, the bytes written by `send_command`. -/
def sendCommandBytes (cmd : Nat) (opt : Option Nat) : List Nat :=
  match opt with
  | none => [255, cmd]
  | some o => [255, cmd, o]

/-- Byte-level view of a backlog: each message entry expanded to its bytes,
so that two deliveries that differ only in how adjacent data was coalesced
compare equal. -/
inductive Atom where
  | byte (b : Nat)
  | ev (e : Event)
deriving DecidableEq

def itemAtoms : Item → List Atom
  | .msg bs => bs.map .byte
  | .ev e => [.ev e]

def flatten (l : List Item) : List Atom :=
  (l.map itemAtoms).flatten

/-- The data bytes carried by the delivered entries, in order. -/
def deliveredBytes (l : List Item) : List Nat :=
  (flatten l).filterMap (fun a => match a with | .byte b => some b | .ev _ => none)

/-- `true` when every delivered entry is message data (no events). -/
def onlyMsgs (l : List Item) : Bool :=
  (flatten l).all (fun a => match a with | .byte _ => true | .ev _ => false)

/-- `TelnetOption` of `_machine.py`: per-option negotiated status. -/
structure TelnetOption where
  localOption : Option Bool
  remoteOption : Option Bool
  replyPending : Bool
deriving DecidableEq

def TelnetOption.default : TelnetOption := ⟨none, none, false⟩

/-- The `defaultdict(TelnetOption)` of `TelnetClient`, as an association
list in insertion order. -/
abbrev OptionTable := List (Nat × TelnetOption)

def lookupOption : OptionTable → Nat → Option TelnetOption
  | [], _ => none
  | (k0, v0) :: rest, k => if k0 = k then some v0 else lookupOption rest k

/-- `defaultdict.__getitem__` for reading: the entry for `k`, plus the table
after the access — reading a missing key inserts the default. -/
def getDefault (t : OptionTable) (k : Nat) : TelnetOption × OptionTable :=
  match lookupOption t k with
  | some v => (v, t)
  | none => (TelnetOption.default, t ++ [(k, TelnetOption.default)])

/-- The entry for `k` as a value (missing keys read as the default). -/
def getItem (t : OptionTable) (k : Nat) : TelnetOption :=
  (lookupOption t k).getD TelnetOption.default

/-- Replace the entry for `k` in place, appending when missing (dict
insertion order). -/
def setEntry : OptionTable → Nat → TelnetOption → OptionTable
  | [], k, v => [(k, v)]
  | (k0, v0) :: rest, k, v =>
    if k0 = k then (k, v) :: rest else (k0, v0) :: setEntry rest k v

/-- `self._options[k].<field> = x`: read through the defaultdict and mutate
the entry in place. -/
def modifyOption (t : OptionTable) (k : Nat) (f : TelnetOption → TelnetOption) : OptionTable :=
  setEntry t k (f (getItem t k))

/-- Python truthiness of `local_option or False` / `remote_option or False`:
only `Some true` is truthy. -/
def pyOr : Option Bool → Bool
  | some true => true
  | _ => false

/-- `TelnetClient.check_local_option`: result and table after the
defaultdict read. -/
def checkLocalOption (t : OptionTable) (k : Nat) : Bool × OptionTable :=
  let r := getDefault t k
  (pyOr r.1.localOption, r.2)

/-- `TelnetClient.check_remote_option`. -/
def checkRemoteOption (t : OptionTable) (k : Nat) : Bool × OptionTable :=
  let r := getDefault t k
  (pyOr r.1.remoteOption, r.2)

def TelnetOption.withReplyPending (v : TelnetOption) (b : Bool) : TelnetOption :=
  ⟨v.localOption, v.remoteOption, b⟩

def TelnetOption.withLocal (v : TelnetOption) (b : Option Bool) : TelnetOption :=
  ⟨b, v.remoteOption, v.replyPending⟩

/-- `TelnetClient.handle_do`: the updated option table and the byte strings
passed to `send` (one per `send_command` call), in call order.  Transcribed
branch by branch: clear `reply_pending`, then the ECHO / BINARY / SGA
branches; any other option falls through without sending. -/
def handleDo (t : OptionTable) (option : Nat) : OptionTable × List (List Nat) :=
  let t1 := modifyOption t option (fun v => v.withReplyPending false)
  if option = 1 then
    if pyOr (getItem t1 1).localOption then (t1, [])
    else (modifyOption t1 1 (fun v => v.withLocal (some true)), [sendCommandBytes 251 (some 1)])
  else if option = 0 then
    if pyOr (getItem t1 0).localOption then (t1, [])
    else (modifyOption t1 0 (fun v => v.withLocal (some true)), [sendCommandBytes 251 (some 0)])
  else if option = 3 then
    if pyOr (getItem t1 3).localOption then (t1, [])
    else (modifyOption t1 3 (fun v => v.withLocal (some true)),
          [sendCommandBytes 251 (some 3), sendCommandBytes 253 (some 3)])
  else (t1, [])

/-- `TelnetClient.on_event`: 2-byte commands raise `ValueError()`; 3-byte
commands dispatch on the command byte (`handle_dont` / `handle_will` /
`handle_wont` are `pass`); other events are ignored. -/
def onEvent (t : OptionTable) (e : Event) : Except PyError (OptionTable × List (List Nat)) :=
  match e with
  | .command cmd o =>
    match o with
    | none => .error (.valueError "")
    | some opt =>
      if cmd = 253 then .ok (handleDo t opt)
      else if cmd = 254 then .ok (t, [])
      else if cmd = 251 then .ok (t, [])
      else if cmd = 252 then .ok (t, [])
      else .ok (t, [])
  | .subCommand _ _ => .ok (t, [])

/-- The event-callback loop at the end of `receive_data`, with a
`TelnetClient` registered: message entries go to the receive callbacks,
events to `on_event`; a raised `ValueError` propagates. -/
def deliverItems (t : OptionTable) (out : List (List Nat)) :
    List Item → Except PyError (OptionTable × List (List Nat))
  | [] => .ok (t, out)
  | .msg _ :: rest => deliverItems t out rest
  | .ev e :: rest =>
    match onEvent t e with
    | .ok (t2, sends) => deliverItems t2 (out ++ sends) rest
    | .error err => .error err

end TelnetModel

namespace TelnetModel

theorem flatten_nil : flatten ([] : List Item) = [] := rfl

theorem flatten_cons (x : Item) (l : List Item) :
    flatten (x :: l) = itemAtoms x ++ flatten l := by
  simp [flatten]

theorem flatten_append (x y : List Item) :
    flatten (x ++ y) = flatten x ++ flatten y := by
  simp [flatten]

theorem flatten_addMessage (bl : List Item) (bs : List Nat) :
    flatten (addMessage bl bs) = flatten bl ++ bs.map Atom.byte := by
  induction bl with
  | nil => simp [addMessage, flatten, itemAtoms]
  | cons x rest ih =>
    cases rest with
    | nil =>
      cases x with
      | msg cs => simp [addMessage, flatten, itemAtoms]
      | ev e => simp [addMessage, flatten, itemAtoms]
    | cons y rest2 =>
      simp only [addMessage, flatten_cons, ih, List.append_assoc]

theorem flatten_addItem (bl : List Item) (it : Item) :
    flatten (addItem bl it) = flatten bl ++ itemAtoms it := by
  cases it with
  | msg bs => simp [addItem, flatten_addMessage, itemAtoms]
  | ev e => simp [addItem, flatten_append, flatten, itemAtoms]

theorem addItems_cons (bl : List Item) (it : Item) (rest : List Item) :
    addItems bl (it :: rest) = addItems (addItem bl it) rest := rfl

theorem flatten_addItems (bl items : List Item) :
    flatten (addItems bl items) = flatten bl ++ flatten items := by
  induction items generalizing bl with
  | nil => simp [addItems, flatten]
  | cons it rest ih =>
    rw [addItems_cons, ih, flatten_addItem, flatten_cons, List.append_assoc]

theorem process_cons (b : Nat) (rest : List Nat) (s : MState) (bl : List Item) :
    process (b :: rest) s bl =
      match step s b with
      | .ok (items, s2) => process rest s2 (addItems bl items)
      | .error e => ⟨bl, .failed, b :: rest, some e⟩ := rfl

theorem process_append_ok (A B : List Nat) (s : MState) (bl : List Item)
    (h : (process A s bl).error = none) :
    process (A ++ B) s bl = process B (process A s bl).state (process A s bl).backlog := by
  induction A generalizing s bl with
  | nil => simp [process]
  | cons b rest ih =>
    cases hs : step s b with
    | ok p =>
      obtain ⟨items, s2⟩ := p
      simp only [List.cons_append, process_cons, hs] at h ⊢
      exact ih _ _ h
    | error e => exact absurd h (by simp [process_cons, hs])

theorem process_append_err (A B : List Nat) (s : MState) (bl : List Item) (e : PyError)
    (h : (process A s bl).error = some e) :
    process (A ++ B) s bl =
      ⟨(process A s bl).backlog, .failed, (process A s bl).leftover ++ B, some e⟩ := by
  induction A generalizing s bl with
  | nil => simp [process] at h
  | cons b rest ih =>
    cases hs : step s b with
    | ok p =>
      obtain ⟨items, s2⟩ := p
      simp only [List.cons_append, process_cons, hs] at h ⊢
      exact ih _ _ h
    | error e2 =>
      simp only [List.cons_append, process_cons, hs] at h ⊢
      obtain rfl : e2 = e := by simpa using h
      simp

theorem process_backlog (L : List Nat) (s : MState) (bl : List Item) :
    (process L s bl).state = (process L s []).state ∧
    (process L s bl).leftover = (process L s []).leftover ∧
    (process L s bl).error = (process L s []).error ∧
    flatten (process L s bl).backlog = flatten bl ++ flatten (process L s []).backlog := by
  induction L generalizing s bl with
  | nil => simp [process, flatten]
  | cons b rest ih =>
    cases hs : step s b with
    | ok p =>
      obtain ⟨items, s2⟩ := p
      simp only [process_cons, hs]
      obtain ⟨h1, h2, h3, h4⟩ := ih s2 (addItems bl items)
      obtain ⟨g1, g2, g3, g4⟩ := ih s2 (addItems ([] : List Item) items)
      refine ⟨h1.trans g1.symm, h2.trans g2.symm, h3.trans g3.symm, ?_⟩
      rw [h4, g4, flatten_addItems, flatten_addItems, flatten_nil]
      simp [List.append_assoc]
    | error e => simp [process_cons, hs, flatten]

end TelnetModel

namespace TelnetModel

theorem lookupOption_setEntry_self (t : OptionTable) (k : Nat) (v : TelnetOption) :
    lookupOption (setEntry t k v) k = some v := by
  induction t with
  | nil => simp [setEntry, lookupOption]
  | cons p rest ih =>
    obtain ⟨k0, v0⟩ := p
    by_cases h : k0 = k <;> simp [setEntry, lookupOption, h, ih]

theorem lookupOption_setEntry_other (t : OptionTable) (k k2 : Nat) (v : TelnetOption)
    (h : k2 ≠ k) : lookupOption (setEntry t k v) k2 = lookupOption t k2 := by
  induction t with
  | nil =>
    have hne : ¬k = k2 := fun hh => h hh.symm
    simp [setEntry, lookupOption, hne]
  | cons p rest ih =>
    obtain ⟨k0, v0⟩ := p
    by_cases hk : k0 = k
    · subst hk
      have hne : ¬k0 = k2 := fun hh => h hh.symm
      simp [setEntry, lookupOption, hne]
    · simp [setEntry, lookupOption, hk, ih]

theorem getItem_setEntry_self (t : OptionTable) (k : Nat) (v : TelnetOption) :
    getItem (setEntry t k v) k = v := by
  simp [getItem, lookupOption_setEntry_self]

theorem getItem_modify_self (t : OptionTable) (k : Nat) (f : TelnetOption → TelnetOption) :
    getItem (modifyOption t k f) k = f (getItem t k) := by
  simp [modifyOption, getItem_setEntry_self]

/-- Claim C1: the spec says `receive_data` is total and delivers the three
SE framing violations as `Error` events (`SE_BUFFER_EMPTY`, `SE_BUFFER_NUL`,
`SE_BUFFER_TOO_SHORT`) in the event stream, self-healing to the Data state.
The code instead raises `ValueError` from `_state_sb` in all three cases,
delivers nothing, and leaves a dead generator behind: the spec (and the
repository's own tests) describe intended behavior the code does not have. -/
theorem c1_se_raises :
    (receiveData Machine.init [255, 250, 255, 240]).error
        = some (PyError.valueError "SE: buffer empty") ∧
    (receiveData Machine.init [255, 250, 0, 255, 240]).error
        = some (PyError.valueError "SE: buffer is NUL") ∧
    (receiveData Machine.init [255, 250, 1, 255, 240]).error
        = some (PyError.valueError "SE: buffer too short") ∧
    (receiveData Machine.init [255, 250, 255, 240]).delivered = [] ∧
    (receiveData Machine.init [255, 250, 255, 240]).machine.state = MState.failed :=
  ⟨rfl, rfl, rfl, rfl, rfl⟩

/-- Claim C2: the spec says that inside a subnegotiation an IAC followed by
a byte `b ∉ {SE, IAC}` clears the buffer, returns to Data and emits
`Error(SB_INVALID, data=[b])`.  The code instead silently discards `b`,
keeps the buffer, and stays inside the subnegotiation: on
`[IAC, SB, WILL, IAC, 0]` nothing is delivered, no error is raised, and the
machine is still in the SB state with buffer `[WILL]`. -/
theorem c2_sb_invalid_dropped :
    (receiveData Machine.init [255, 250, 251, 255, 0]).delivered = [] ∧
    (receiveData Machine.init [255, 250, 251, 255, 0]).error = none ∧
    (receiveData Machine.init [255, 250, 251, 255, 0]).machine.state = MState.sb [251] :=
  ⟨rfl, rfl, rfl⟩

/-- Claim C5: after a CR in the Data state, exactly one of four transitions
runs on the next byte `b`: LF emits `\n`; NUL emits `\r`; IAC emits `\r`
and enters the Command state; any other byte emits `\r` followed by `b`,
staying in Data.  Stated both on the transition function and on a
`receive_data` run over `[CR, b]`. -/
theorem c5_cr_handling (b : Nat) :
    step MState.dataCr b = .ok (
      if b = 10 then ([Item.msg [10]], MState.data)
      else if b = 0 then ([Item.msg [13]], MState.data)
      else if b = 255 then ([Item.msg [13]], MState.iac)
      else ([Item.msg [13, b]], MState.data)) ∧
    receiveData Machine.init [13, b] =
      ⟨if b = 10 then [Item.msg [10]]
        else if b = 0 then [Item.msg [13]]
        else if b = 255 then [Item.msg [13]]
        else [Item.msg [13, b]],
       ⟨if b = 255 then MState.iac else MState.data, [], []⟩, none⟩ := by
  by_cases h10 : b = 10
  · subst h10; exact ⟨rfl, rfl⟩
  · by_cases h0 : b = 0
    · subst h0; exact ⟨rfl, rfl⟩
    · by_cases h255 : b = 255
      · subst h255; exact ⟨rfl, rfl⟩
      · refine ⟨by simp [step, h10, h0, h255], ?_⟩
        simp [receiveData, Machine.init, process, step, addItems, addItem, addMessage,
              h10, h0, h255]

/-- Claim C9 (amended): querying a never-written option code returns the
value derived from the default `{None, None, false}` (true iff the stored
flag is `Some true`, hence `false`), but the `defaultdict` read inserts a
default entry for the key: the table does not stay unchanged. -/
theorem c9_check_option_missing (t : OptionTable) (k : Nat)
    (h : lookupOption t k = none) :
    (checkLocalOption t k).1 = false ∧
    (checkRemoteOption t k).1 = false ∧
    (checkLocalOption t k).2 = t ++ [(k, TelnetOption.default)] ∧
    (checkRemoteOption t k).2 = t ++ [(k, TelnetOption.default)] := by
  simp [checkLocalOption, checkRemoteOption, getDefault, h, pyOr, TelnetOption.default]

theorem c9_check_option_missing_witness :
    lookupOption ([] : OptionTable) 5 = none ∧
    ((checkLocalOption ([] : OptionTable) 5).1 = false ∧
     (checkRemoteOption ([] : OptionTable) 5).1 = false ∧
     (checkLocalOption ([] : OptionTable) 5).2 = [] ++ [(5, TelnetOption.default)] ∧
     (checkRemoteOption ([] : OptionTable) 5).2 = [] ++ [(5, TelnetOption.default)]) :=
  ⟨rfl, c9_check_option_missing [] 5 rfl⟩

/-- Claim C9 counterexample: reading a missing key through
`check_local_option` does not leave the table unchanged — the `defaultdict`
inserts a default entry for the key. -/
theorem c9_counterexample :
    (checkLocalOption ([] : OptionTable) 5).2 ≠ ([] : OptionTable) ∧
    (checkLocalOption ([] : OptionTable) 5).1 = false :=
  ⟨by decide, rfl⟩

/-- Claim C7 counterexample: on `DO(option)` for an option outside the
accept list (here STATUS = 5) `handle_do` sends nothing at all — in
particular no `WONT(5)` refusal `[IAC, WONT, 5]`. -/
theorem c7_counterexample :
    (handleDo ([] : OptionTable) 5).2 = [] ∧
    sendCommandBytes 252 (some 5) ∉ (handleDo ([] : OptionTable) 5).2 :=
  ⟨rfl, by decide⟩

/-- Claim C7 (amended): for an option code outside the accept list
{ECHO=1, BINARY=0, SGA=3}, `handle_do` only clears `reply_pending` for that
option (inserting a defaulted entry when missing) and sends no bytes — it
does not send a `WONT` refusal. -/
theorem c7_handle_do_unknown (t : OptionTable) (X : Nat)
    (h1 : X ≠ 1) (h0 : X ≠ 0) (h3 : X ≠ 3) :
    (handleDo t X).2 = [] ∧
    lookupOption (handleDo t X).1 X = some ((getItem t X).withReplyPending false) ∧
    (∀ k, k ≠ X → lookupOption (handleDo t X).1 k = lookupOption t k) := by
  refine ⟨by simp [handleDo, h1, h0, h3], ?_, ?_⟩
  · simp [handleDo, h1, h0, h3, modifyOption, lookupOption_setEntry_self]
  · intro k hk
    simp [handleDo, h1, h0, h3, modifyOption, lookupOption_setEntry_other _ _ _ _ hk]

theorem c7_handle_do_unknown_witness :
    (handleDo ([] : OptionTable) 34).2 = [] ∧
    lookupOption (handleDo ([] : OptionTable) 34).1 34
      = some ((getItem ([] : OptionTable) 34).withReplyPending false) ∧
    (∀ k, k ≠ 34 → lookupOption (handleDo ([] : OptionTable) 34).1 k
      = lookupOption ([] : OptionTable) k) :=
  c7_handle_do_unknown [] 34 (by decide) (by decide) (by decide)

end TelnetModel

namespace TelnetModel

theorem sendMessage_eq_escapeSpec : ∀ data : List Nat, sendMessage data = escapeSpec data := by
  intro data
  induction data with
  | nil => rfl
  | cons b rest ih =>
    by_cases hb : b = 255 <;> simp [sendMessage, escapeSpec, hb] <;>
      simpa [escapeSpec] using ih

theorem sendMessage_no_iac : ∀ data : List Nat, 255 ∉ data → sendMessage data = data := by
  intro data
  induction data with
  | nil => intro _; rfl
  | cons b rest ih =>
    intro h
    have hb : b ≠ 255 := fun hh => h (hh ▸ List.mem_cons_self b rest)
    have hrest : (255 : Nat) ∉ rest := fun hm => h (List.mem_cons_of_mem _ hm)
    simp [sendMessage, hb, ih hrest]

theorem sendMessage_run : ∀ (data : List Nat) (bl : List Item), 13 ∉ data →
    process (sendMessage data) MState.data bl =
      ⟨data.foldl (fun acc b => addMessage acc [b]) bl, MState.data, [], none⟩ := by
  intro data
  induction data with
  | nil => intro bl _; rfl
  | cons b rest ih =>
    intro bl h
    have hb13 : b ≠ 13 := fun hh => h (hh ▸ List.mem_cons_self b rest)
    have hrest : (13 : Nat) ∉ rest := fun hm => h (List.mem_cons_of_mem _ hm)
    by_cases hb : b = 255
    · subst hb
      have s1 : step MState.data 255 = .ok ([], MState.iac) := rfl
      have s2 : step MState.iac 255 = .ok ([Item.msg [255]], MState.data) := rfl
      simp only [sendMessage, if_pos rfl, process_cons, s1, s2, List.foldl_cons]
      simpa [addItems, addItem] using ih (addMessage bl [255]) hrest
    · have s1 : step MState.data b = .ok ([Item.msg [b]], MState.data) := by
        simp [step, hb, hb13]
      simp only [sendMessage, if_neg hb, process_cons, s1, List.foldl_cons]
      simpa [addItems, addItem] using ih (addMessage bl [b]) hrest

theorem foldl_addMessage_flatten : ∀ (data : List Nat) (bl : List Item),
    flatten (data.foldl (fun acc b => addMessage acc [b]) bl)
      = flatten bl ++ data.map Atom.byte := by
  intro data
  induction data with
  | nil => intro bl; simp
  | cons b rest ih =>
    intro bl
    simp only [List.foldl_cons, List.map_cons, ih, flatten_addMessage, List.append_assoc,
      List.singleton_append]
    simp

theorem bytes_filterMap (l : List Nat) :
    (l.map Atom.byte).filterMap
      (fun a => match a with | .byte b => some b | .ev _ => none) = l := by
  induction l with
  | nil => rfl
  | cons b rest ih => simp [ih]

theorem bytes_all_msg (l : List Nat) :
    (l.map Atom.byte).all
      (fun a => match a with | .byte _ => true | .ev _ => false) = true := by
  induction l with
  | nil => rfl
  | cons b rest ih => simp [ih]

/-- Claim C4 (amended): `send_message` doubles every IAC byte and changes
nothing else, so IAC-free data is sent unchanged — this holds for all data.
The decode round trip (only Data entries whose bytes concatenate back to
`data`) holds for all data containing no CR (13); with a CR present,
CR-LF / CR-NUL normalization rewrites the stream on decode. -/
theorem c4_escape_roundtrip (data : List Nat) :
    sendMessage data = escapeSpec data ∧
    ((255 : Nat) ∉ data → sendMessage data = data) ∧
    ((13 : Nat) ∉ data →
      (receiveData Machine.init (sendMessage data)).error = none ∧
      onlyMsgs (receiveData Machine.init (sendMessage data)).delivered = true ∧
      deliveredBytes (receiveData Machine.init (sendMessage data)).delivered = data) := by
  refine ⟨sendMessage_eq_escapeSpec data, sendMessage_no_iac data, ?_⟩
  intro h13
  have hrun := sendMessage_run data [] h13
  have hrecv : receiveData Machine.init (sendMessage data)
      = ⟨data.foldl (fun acc b => addMessage acc [b]) [], ⟨MState.data, [], []⟩, none⟩ := by
    simp [receiveData, Machine.init, hrun]
  have hflat : flatten (receiveData Machine.init (sendMessage data)).delivered
      = data.map Atom.byte := by
    rw [hrecv]
    simpa using foldl_addMessage_flatten data []
  refine ⟨by rw [hrecv], ?_, ?_⟩
  · rw [onlyMsgs, hflat]; exact bytes_all_msg data
  · rw [deliveredBytes, hflat]; exact bytes_filterMap data

/-- Claim C4 counterexample: for `data = [CR, LF]` (which contains no IAC,
so it is sent unchanged) the decode of the sent bytes concatenates to
`[LF]`, not to `data`: CR-LF normalization breaks the universal round
trip. -/
theorem c4_counterexample :
    sendMessage [13, 10] = [13, 10] ∧
    deliveredBytes (receiveData Machine.init (sendMessage [13, 10])).delivered = [10] ∧
    ([10] : List Nat) ≠ [13, 10] :=
  ⟨rfl, rfl, by decide⟩

theorem c4_escape_roundtrip_witness :
    ((255 : Nat) ∉ ([48, 49] : List Nat)) ∧ ((13 : Nat) ∉ ([48, 49] : List Nat)) ∧
    sendMessage [48, 49] = escapeSpec [48, 49] ∧
    sendMessage [48, 49] = [48, 49] ∧
    ((receiveData Machine.init (sendMessage [48, 49])).error = none ∧
     onlyMsgs (receiveData Machine.init (sendMessage [48, 49])).delivered = true ∧
     deliveredBytes (receiveData Machine.init (sendMessage [48, 49])).delivered = [48, 49]) :=
  ⟨by decide, by decide, (c4_escape_roundtrip [48, 49]).1,
   (c4_escape_roundtrip [48, 49]).2.1 (by decide),
   (c4_escape_roundtrip [48, 49]).2.2 (by decide)⟩

/-- Claim C8: on `DO(X)` for `X` in the accept list {ECHO=1, BINARY=0,
SGA=3}, when `local_option` is not already truthy `handle_do` sets it to
`True` and sends `WILL(X)`; for SGA it additionally sends `DO(SGA)` after
the `WILL(SGA)`; and a repeated `DO(X)` for an already-agreed option sends
nothing. -/
theorem c8_handle_do_accept (t : OptionTable) (X : Nat)
    (hX : X ∈ ([1, 0, 3] : List Nat)) :
    (pyOr (getItem t X).localOption = false →
      (getItem (handleDo t X).1 X).localOption = some true ∧
      (handleDo t X).2 = [255, 251, X] :: (if X = 3 then [[255, 253, 3]] else [])) ∧
    (pyOr (getItem t X).localOption = true → (handleDo t X).2 = []) := by
  have hX3 : X = 1 ∨ X = 0 ∨ X = 3 := by simpa using hX
  rcases hX3 with rfl | rfl | rfl <;>
    constructor <;> intro h <;>
      simp [handleDo, getItem_modify_self, TelnetOption.withReplyPending,
            TelnetOption.withLocal, sendCommandBytes, h]

theorem c8_handle_do_accept_witness :
    ((3 : Nat) ∈ ([1, 0, 3] : List Nat)) ∧
    pyOr (getItem ([] : OptionTable) 3).localOption = false ∧
    (getItem (handleDo ([] : OptionTable) 3).1 3).localOption = some true ∧
    (handleDo ([] : OptionTable) 3).2 = [[255, 251, 3], [255, 253, 3]] ∧
    (handleDo ([(3, ⟨some true, none, false⟩)] : OptionTable) 3).2 = [] := by
  have h1 := (c8_handle_do_accept ([] : OptionTable) 3 (by decide)).1 (by decide)
  have h2 := (c8_handle_do_accept ([(3, ⟨some true, none, false⟩)] : OptionTable) 3
    (by decide)).2 (by decide)
  exact ⟨by decide, by decide, h1.1, by simpa using h1.2, h2⟩

theorem deliverItems_bad (c : Nat) : ∀ (items : List Item) (t : OptionTable)
    (out : List (List Nat)), Item.ev (Event.command c none) ∈ items →
    ∃ err, deliverItems t out items = .error err := by
  intro items
  induction items with
  | nil => intro t out h; simp at h
  | cons it rest ih =>
    intro t out h
    rcases List.mem_cons.mp h with rfl | hmem
    · exact ⟨PyError.valueError "", by simp [deliverItems, onEvent]⟩
    · cases it with
      | msg bs => simpa [deliverItems] using ih t out hmem
      | ev e =>
        cases he : onEvent t e with
        | ok p =>
          obtain ⟨t2, sends⟩ := p
          simpa [deliverItems, he] using ih t2 (out ++ sends) hmem
        | error err => exact ⟨err, by simp [deliverItems, he]⟩

/-- Claim C10: `on_event` raises `ValueError` for every 2-byte `Command`
(option absent), for every client state; the event-delivery loop therefore
raises whenever the delivered items contain such a command; and only the
four 3-byte commands are dispatched — `DO` runs `handle_do`, while a
3-byte command outside {DO, DONT, WILL, WONT} changes nothing and sends
nothing. -/
theorem c10_on_event_two_byte :
    (∀ (t : OptionTable) (c : Nat),
      onEvent t (Event.command c none) = .error (PyError.valueError "")) ∧
    (∀ (t : OptionTable) (c o : Nat), c ≠ 253 → c ≠ 254 → c ≠ 251 → c ≠ 252 →
      onEvent t (Event.command c (some o)) = .ok (t, [])) ∧
    (∀ (t : OptionTable) (o : Nat),
      onEvent t (Event.command 253 (some o)) = .ok (handleDo t o)) ∧
    (∀ (t : OptionTable) (items : List Item) (out : List (List Nat)),
      (∃ c, Item.ev (Event.command c none) ∈ items) →
      ∃ err, deliverItems t out items = .error err) := by
  refine ⟨fun t c => rfl, ?_, fun t o => rfl, ?_⟩
  · intro t c o h253 h254 h251 h252
    simp [onEvent, h253, h254, h251, h252]
  · intro t items out h
    obtain ⟨c, hc⟩ := h
    exact deliverItems_bad c items t out hc

theorem c10_on_event_two_byte_witness :
    onEvent ([] : OptionTable) (Event.command 244 none)
      = .error (PyError.valueError "") ∧
    ((241 : Nat) ≠ 253 ∧
      onEvent ([] : OptionTable) (Event.command 241 (some 1)) = .ok ([], [])) ∧
    (∃ err, deliverItems ([] : OptionTable) [] [Item.ev (Event.command 244 none)]
      = .error err) :=
  ⟨c10_on_event_two_byte.1 [] 244,
   ⟨by decide, c10_on_event_two_byte.2.1 [] 241 1 (by decide) (by decide) (by decide) (by decide)⟩,
   c10_on_event_two_byte.2.2.2 [] [Item.ev (Event.command 244 none)] []
     ⟨244, by simp⟩⟩

end TelnetModel

namespace TelnetModel

/-- The command-arity invariant on a backlog entry: any `Command` event it
carries has its option present exactly when the command byte is one of
DO, DONT, WILL, WONT. -/
def CmdShape (it : Item) : Prop :=
  ∀ c o, it = Item.ev (Event.command c o) → (o.isSome = true ↔ c ∈ iacMbs)

/-- The pending 3-byte command, when one is stored, is one of
DO, DONT, WILL, WONT. -/
def StateShape (s : MState) : Prop :=
  ∀ c, s = MState.iacOpt c → c ∈ iacMbs

theorem cmdShape_msg (bs : List Nat) : CmdShape (Item.msg bs) := by
  intro c o hco
  cases hco

theorem cmdShape_sub (c0 : Nat) (l : List Nat) :
    CmdShape (Item.ev (Event.subCommand c0 l)) := by
  intro c o hco
  simp at hco

theorem step_shape (s : MState) (b : Nat) (items : List Item) (s2 : MState)
    (hs : StateShape s) (h : step s b = .ok (items, s2)) :
    (∀ it ∈ items, CmdShape it) ∧ StateShape s2 := by
  have hdata : StateShape MState.data := by intro c hc; cases hc
  have hdataCr : StateShape MState.dataCr := by intro c hc; cases hc
  have hiac : StateShape MState.iac := by intro c hc; cases hc
  have hsb : ∀ buf, StateShape (MState.sb buf) := by intro buf c hc; cases hc
  have hsbIac : ∀ buf, StateShape (MState.sbIac buf) := by intro buf c hc; cases hc
  cases s with
  | data =>
    by_cases h255 : b = 255
    · simp [step, h255] at h
      obtain ⟨rfl, rfl⟩ := h
      exact ⟨by simp, hiac⟩
    · by_cases h13 : b = 13
      · simp [step, h255, h13] at h
        obtain ⟨rfl, rfl⟩ := h
        exact ⟨by simp, hdataCr⟩
      · simp [step, h255, h13] at h
        obtain ⟨rfl, rfl⟩ := h
        refine ⟨?_, hdata⟩
        intro it hit
        simp at hit
        subst hit
        exact cmdShape_msg _
  | dataCr =>
    by_cases h10 : b = 10
    · simp [step, h10] at h
      obtain ⟨rfl, rfl⟩ := h
      refine ⟨?_, hdata⟩
      intro it hit; simp at hit; subst hit; exact cmdShape_msg _
    · by_cases h0 : b = 0
      · simp [step, h10, h0] at h
        obtain ⟨rfl, rfl⟩ := h
        refine ⟨?_, hdata⟩
        intro it hit; simp at hit; subst hit; exact cmdShape_msg _
      · by_cases h255 : b = 255
        · simp [step, h10, h0, h255] at h
          obtain ⟨rfl, rfl⟩ := h
          refine ⟨?_, hiac⟩
          intro it hit; simp at hit; subst hit; exact cmdShape_msg _
        · simp [step, h10, h0, h255] at h
          obtain ⟨rfl, rfl⟩ := h
          refine ⟨?_, hdata⟩
          intro it hit; simp at hit; subst hit; exact cmdShape_msg _
  | iac =>
    by_cases hmbs : b ∈ iacMbs
    · simp [step, hmbs] at h
      obtain ⟨rfl, rfl⟩ := h
      refine ⟨by simp, ?_⟩
      intro c hc
      injection hc with hc2
      exact hc2 ▸ hmbs
    · by_cases h255 : b = 255
      · simp [step, hmbs, h255] at h
        obtain ⟨rfl, rfl⟩ := h
        refine ⟨?_, hdata⟩
        intro it hit; simp at hit; subst hit; exact cmdShape_msg _
      · by_cases h250 : b = 250
        · simp [step, hmbs, h255, h250] at h
          obtain ⟨rfl, rfl⟩ := h
          exact ⟨by simp, hsb []⟩
        · by_cases hopt : optMember b
          · simp [step, hmbs, h255, h250, hopt] at h
            obtain ⟨rfl, rfl⟩ := h
            refine ⟨?_, hdata⟩
            intro it hit
            simp at hit
            subst hit
            intro c o hco
            simp at hco
            obtain ⟨rfl, rfl⟩ := hco
            simp [hmbs]
          · simp [step, hmbs, h255, h250, hopt] at h
  | iacOpt cmd =>
    simp [step] at h
    obtain ⟨rfl, rfl⟩ := h
    refine ⟨?_, hdata⟩
    intro it hit
    simp at hit
    subst hit
    intro c o hco
    simp at hco
    obtain ⟨rfl, rfl⟩ := hco
    simp [hs cmd rfl]
  | sb buf =>
    by_cases h255 : b = 255
    · simp [step, h255] at h
      obtain ⟨rfl, rfl⟩ := h
      exact ⟨by simp, hsbIac buf⟩
    · simp [step, h255] at h
      obtain ⟨rfl, rfl⟩ := h
      exact ⟨by simp, hsb _⟩
  | sbIac buf =>
    by_cases h240 : b = 240
    · cases buf with
      | nil => simp [step, h240] at h
      | cons c0 rest0 =>
        by_cases hc0 : c0 = 0
        · simp [step, h240, hc0] at h
        · by_cases hrest : rest0 = []
          · simp [step, h240, hc0, hrest] at h
          · by_cases hopt : optMember c0
            · simp [step, h240, hc0, hrest, hopt] at h
              obtain ⟨rfl, rfl⟩ := h
              refine ⟨?_, hdata⟩
              intro it hit
              simp at hit
              subst hit
              exact cmdShape_sub _ _
            · simp [step, h240, hc0, hrest, hopt] at h
    · by_cases h255 : b = 255
      · simp [step, h240, h255] at h
        obtain ⟨rfl, rfl⟩ := h
        exact ⟨by simp, hsb _⟩
      · simp [step, h240, h255] at h
        obtain ⟨rfl, rfl⟩ := h
        exact ⟨by simp, hsb _⟩
  | failed =>
    simp [step] at h
    obtain ⟨rfl, rfl⟩ := h
    exact ⟨by simp, hdata⟩

theorem addMessage_shape (bl : List Item) (bs : List Nat)
    (hbl : ∀ it ∈ bl, CmdShape it) : ∀ it ∈ addMessage bl bs, CmdShape it := by
  induction bl with
  | nil =>
    intro it hit
    simp [addMessage] at hit
    subst hit
    exact cmdShape_msg _
  | cons x rest ih =>
    cases rest with
    | nil =>
      cases x with
      | msg cs =>
        intro it hit
        simp [addMessage] at hit
        subst hit
        exact cmdShape_msg _
      | ev e =>
        intro it hit
        simp [addMessage] at hit
        rcases hit with rfl | rfl
        · exact hbl _ (by simp)
        · exact cmdShape_msg _
    | cons y rest2 =>
      intro it hit
      simp only [addMessage, List.mem_cons] at hit
      rcases hit with rfl | hit
      · exact hbl _ (by simp)
      · exact ih (fun j hj => hbl j (List.mem_cons_of_mem _ hj)) _ hit

theorem addItem_shape (bl : List Item) (x : Item)
    (hbl : ∀ it ∈ bl, CmdShape it) (hx : CmdShape x) :
    ∀ it ∈ addItem bl x, CmdShape it := by
  cases x with
  | msg bs => exact addMessage_shape bl bs hbl
  | ev e =>
    intro it hit
    simp [addItem] at hit
    rcases hit with hit | rfl
    · exact hbl _ hit
    · exact hx

theorem addItems_shape (bl items : List Item)
    (hbl : ∀ it ∈ bl, CmdShape it) (hitems : ∀ it ∈ items, CmdShape it) :
    ∀ it ∈ addItems bl items, CmdShape it := by
  induction items generalizing bl with
  | nil => simpa [addItems] using hbl
  | cons x rest ih =>
    rw [addItems_cons]
    exact ih (addItem bl x)
      (addItem_shape bl x hbl (hitems x (by simp)))
      (fun j hj => hitems j (List.mem_cons_of_mem _ hj))

theorem process_shape (L : List Nat) (s : MState) (bl : List Item)
    (hs : StateShape s) (hbl : ∀ it ∈ bl, CmdShape it) :
    ∀ it ∈ (process L s bl).backlog, CmdShape it := by
  induction L generalizing s bl with
  | nil => simpa [process] using hbl
  | cons b rest ih =>
    cases hstep : step s b with
    | ok p =>
      obtain ⟨items, s2⟩ := p
      have h2 := step_shape s b items s2 hs hstep
      simp only [process_cons, hstep]
      exact ih s2 _ h2.2 (addItems_shape bl items hbl h2.1)
    | error e =>
      simp only [process_cons, hstep]
      simpa using hbl

end TelnetModel

namespace TelnetModel

/-- Claim C6 (amended): in every run from a fresh machine, every delivered
`Command` event has its option present exactly when its command byte is one
of DO, DONT, WILL, WONT; and `IAC X` with `X ∉ {IAC, SB}` and `X` outside
that set emits the 2-byte `Command(X)` provided `X` is a member of the
`Opt` enum — for any other `X` the `Opt(X)` conversion raises `ValueError`
and no event is emitted. -/
theorem c6_command_arity :
    (∀ (input : List Nat), ∀ it ∈ (receiveData Machine.init input).delivered,
      ∀ c o, it = Item.ev (Event.command c o) → (o.isSome = true ↔ c ∈ iacMbs)) ∧
    (∀ b : Nat, b ∉ iacMbs → b ≠ 255 → b ≠ 250 → optMember b = true →
      step MState.iac b = .ok ([Item.ev (Event.command b none)], MState.data)) := by
  constructor
  · intro input it hit
    have hmain := process_shape input MState.data []
      (by intro c hc; cases hc) (by intro j hj; cases hj)
    rcases herr : (process input MState.data []).error with _ | e
    · have hdel : (receiveData Machine.init input).delivered
          = (process input MState.data []).backlog := by
        simp [receiveData, Machine.init, herr]
      rw [hdel] at hit
      exact hmain it hit
    · have hdel : (receiveData Machine.init input).delivered = [] := by
        simp [receiveData, Machine.init, herr]
      rw [hdel] at hit
      cases hit
  · intro b hmbs h255 h250 hopt
    simp [step, hmbs, h255, h250, hopt]

/-- Claim C6 counterexample: `IAC 100` (100 ∉ {IAC, SB}) does not emit a
2-byte `Command(100)`: the `Opt(100)` conversion raises `ValueError` and
nothing is delivered. -/
theorem c6_counterexample :
    (receiveData Machine.init [255, 100]).delivered = [] ∧
    (receiveData Machine.init [255, 100]).error
      = some (PyError.valueError "not a valid Opt") :=
  ⟨rfl, rfl⟩

theorem c6_command_arity_witness :
    Item.ev (Event.command 244 none) ∈ (receiveData Machine.init [255, 244]).delivered ∧
    ((Option.none : Option Nat).isSome = true ↔ (244 : Nat) ∈ iacMbs) ∧
    step MState.iac 241 = .ok ([Item.ev (Event.command 241 none)], MState.data) :=
  ⟨by decide,
   c6_command_arity.1 [255, 244] (Item.ev (Event.command 244 none)) (by decide) 244 none rfl,
   c6_command_arity.2 241 (by decide) (by decide) (by decide) (by decide)⟩

theorem receiveData_from_ok (s : MState) (L : List Nat)
    (h : (process L s []).error = none) :
    receiveData ⟨s, [], []⟩ L
      = ⟨(process L s []).backlog, ⟨(process L s []).state, [], []⟩, none⟩ := by
  simp [receiveData, h]

theorem receiveData_from_err (s : MState) (L : List Nat) (e : PyError)
    (h : (process L s []).error = some e) :
    receiveData ⟨s, [], []⟩ L
      = ⟨[], ⟨(process L s []).state, (process L s []).backlog,
              (process L s []).leftover⟩, some e⟩ := by
  simp [receiveData, h]

/-- Claim C3 (amended): chunking independence holds for every split of
every input whose whole-stream processing raises no exception: feeding
`A` then `B` through the same machine raises nothing and delivers, up to
coalescing of adjacent data (compared via `flatten`), exactly the events of
feeding `A ++ B` whole.  (When the whole stream raises — a malformed
subnegotiation — the events buffered by the raising call are withheld, so
a split can deliver strictly more than the whole feed; see the
counterexample.) -/
theorem c3_chunking_independence (A B : List Nat)
    (h : (receiveData Machine.init (A ++ B)).error = none) :
    (receiveData Machine.init A).error = none ∧
    (receiveData (receiveData Machine.init A).machine B).error = none ∧
    flatten ((receiveData Machine.init A).delivered
        ++ (receiveData (receiveData Machine.init A).machine B).delivered)
      = flatten (receiveData Machine.init (A ++ B)).delivered := by
  have hinit : Machine.init = (⟨MState.data, [], []⟩ : Machine) := rfl
  rw [hinit] at h ⊢
  have hAB : (process (A ++ B) MState.data []).error = none := by
    rcases hw : (process (A ++ B) MState.data []).error with _ | e
    · rfl
    · rw [receiveData_from_err MState.data (A ++ B) e hw] at h
      cases h
  have hA : (process A MState.data []).error = none := by
    rcases hw : (process A MState.data []).error with _ | e
    · rfl
    · have hx := process_append_err A B MState.data [] e hw
      rw [hx] at hAB
      cases hAB
  have happ := process_append_ok A B MState.data [] hA
  have hrel := process_backlog B (process A MState.data []).state
    (process A MState.data []).backlog
  have hB : (process B (process A MState.data []).state []).error = none := by
    rw [← hrel.2.2.1, ← happ, hAB]
  rw [receiveData_from_ok MState.data A hA]
  rw [receiveData_from_ok _ B hB]
  rw [receiveData_from_ok MState.data (A ++ B) hAB]
  refine ⟨rfl, rfl, ?_⟩
  rw [flatten_append, happ, hrel.2.2.2]

/-- Claim C3 counterexample: for `S = [65] ++ [IAC, SB, IAC, SE]`, feeding
`S` whole raises before flushing the backlog, so nothing is delivered,
while feeding `[65]` first delivers the data byte 65: a split does not
yield the same event sequence. -/
theorem c3_counterexample :
    flatten ((receiveData Machine.init [65]).delivered
        ++ (receiveData (receiveData Machine.init [65]).machine
              [255, 250, 255, 240]).delivered)
      ≠ flatten (receiveData Machine.init ([65] ++ [255, 250, 255, 240])).delivered := by
  decide

theorem c3_chunking_independence_witness :
    (receiveData Machine.init ([255] ++ [251, 1, 65])).error = none ∧
    ((receiveData Machine.init [255]).error = none ∧
     (receiveData (receiveData Machine.init [255]).machine [251, 1, 65]).error = none ∧
     flatten ((receiveData Machine.init [255]).delivered
         ++ (receiveData (receiveData Machine.init [255]).machine [251, 1, 65]).delivered)
       = flatten (receiveData Machine.init ([255] ++ [251, 1, 65])).delivered) :=
  ⟨rfl, c3_chunking_independence [255] [251, 1, 65] rfl⟩

end TelnetModel
